import Mathlib

/-!
Verification of the VidUnpack toolserver (crates/toolserver/src/main.rs).

This file shallowly embeds the data model and the pure decision logic of the
toolserver: the artifact registry, the pool-item deduplicator, the consent
gate, the ffmpeg derivation pipeline's anchor computation, the export
estimate/materialize pair, the profile aggregator and the path sanitizers.
SQLite tables are modelled as Lean lists (insertion order = rowid order), the
filesystem as an association list from relative path to byte size, and
wall-clock timestamps and freshly generated UUIDs are passed in as explicit
parameters.  Machine integers (i64 timestamps, u64 sizes) are modelled as
Int/Nat; the claims under study never approach the overflow boundary, so no
modular reduction is applied.
-/

set_option maxRecDepth 20000

namespace VidUnpack

/-! ## Rust string primitives

Character-level helpers mirroring the Rust standard library functions used by
main.rs.  They operate on explicit character lists so that every definition
reduces inside the kernel.
-/

/-- Rust str::trim, dropping whitespace from both ends
(main.rs uses trim on ids, urls and keys throughout). -/
def trimChars (l : List Char) : List Char :=
  ((l.dropWhile Char.isWhitespace).reverse.dropWhile Char.isWhitespace).reverse

/-- Rust str::trim lifted to String. -/
def rustTrim (s : String) : String :=
  ⟨trimChars s.toList⟩

/-- Helper for splitChar: accumulates the current piece (reversed). -/
def splitCharAux (sep : Char) : List Char → List Char → List (List Char)
  | [], acc => [acc.reverse]
  | c :: rest, acc =>
    if c = sep then acc.reverse :: splitCharAux sep rest []
    else splitCharAux sep rest (c :: acc)

/-- Rust str::split(sep) for a single-character separator: keeps empty
pieces, always yields at least one piece. -/
def splitChar (sep : Char) (l : List Char) : List (List Char) :=
  splitCharAux sep l []

/-- Rust str::trim_end_matches(c): strip every trailing occurrence of c. -/
def trimEndMatches (c : Char) (l : List Char) : List Char :=
  (l.reverse.dropWhile (· = c)).reverse

/-- Byte-lexicographic Bool comparison on characters (Rust Ord for char /
for the ASCII data in play, for str). -/
def charLeB (a b : Char) : Bool :=
  a.val ≤ b.val

/-- Byte-lexicographic less-or-equal on character lists, modelling Rust
str::cmp (the two agree on the ASCII keys this code compares). -/
def lexLeB : List Char → List Char → Bool
  | [], _ => true
  | _ :: _, [] => false
  | a :: as', b :: bs' =>
    if a = b then lexLeB as' bs'
    else charLeB a b

/-- String wrapper for lexLeB. -/
def strLeB (a b : String) : Bool :=
  lexLeB a.toList b.toList

/-! ## Data model

Rows of the SQLite tables created by init_db, restricted to the columns the
claims touch.  Tables are lists ordered by insertion (rowid order).
-/

/-- A row of the artifacts table (ArtifactResponse in main.rs). -/
structure Artifact where
  id : String
  project_id : String
  kind : String
  path : String
  created_at_ms : Int
deriving DecidableEq

/-- A row of the pool_items table (PoolItemResponse in main.rs). -/
structure PoolItem where
  id : String
  project_id : String
  kind : String
  title : Option String
  source_url : Option String
  license : Option String
  dedup_key : String
  data_json : Option String
  selected : Bool
  created_at_ms : Int
deriving DecidableEq

/-- A row of the consents table. -/
structure ConsentRow where
  project_id : String
  consented : Bool
  auto_confirm : Bool
  updated_at_ms : Int
deriving DecidableEq

/-! ## Claim C2: artifact registry (ensure_artifact, main.rs 2317-2347) -/

/-- Predicate used by ensure_artifact's lookup:
SELECT ... WHERE project_id = ?1 AND kind = ?2 AND path = ?3 LIMIT 1. -/
def artifactMatches (pid kind path : String) (a : Artifact) : Bool :=
  a.project_id = pid ∧ a.kind = kind ∧ a.path = path

/-- ensure_artifact: look up the (project, kind, path) triple; if found,
return the existing row (rebuilt from the stored id and created_at_ms);
otherwise insert a new row with the supplied fresh id and timestamp.
Returns the table after the call together with the returned artifact.
freshId stands for the Uuid::new_v4() drawn inside the function. -/
def ensure_artifact (freshId : String) (db : List Artifact)
    (pid kind path : String) (now : Int) : List Artifact × Artifact :=
  match db.find? (artifactMatches pid kind path) with
  | some a =>
    (db, { id := a.id, project_id := pid, kind := kind, path := path,
           created_at_ms := a.created_at_ms })
  | none =>
    let a : Artifact :=
      { id := freshId, project_id := pid, kind := kind, path := path,
        created_at_ms := now }
    (db ++ [a], a)

theorem find?_append_of_eq_none {α} (p : α → Bool) (l₁ l₂ : List α)
    (h : l₁.find? p = none) : (l₁ ++ l₂).find? p = l₂.find? p := by
  induction l₁ with
  | nil => simp
  | cons x xs ih =>
    cases hx : p x with
    | true => simp [List.find?_cons, hx] at h
    | false =>
      simp only [List.cons_append, List.find?_cons, hx] at h ⊢
      exact ih h

/-- Claim C2: for every project, kind and path, a second (and by the proved
state equality every later) call to ensure_artifact with the same
(project, kind, path) returns exactly the id, path and created_at_ms
produced by the first call, regardless of the timestamp and fresh id
supplied to the later call, and leaves the artifacts table unchanged
(no row is inserted). -/
theorem ensure_artifact_idempotent (id₁ id₂ : String) (db : List Artifact)
    (pid kind path : String) (t₁ t₂ : Int) :
    ensure_artifact id₂ (ensure_artifact id₁ db pid kind path t₁).1
      pid kind path t₂
      = ((ensure_artifact id₁ db pid kind path t₁).1,
         (ensure_artifact id₁ db pid kind path t₁).2) := by
  unfold ensure_artifact
  cases hfind : db.find? (artifactMatches pid kind path) with
  | some a =>
    simp only [hfind]
  | none =>
    simp only [hfind]
    have hmatch : artifactMatches pid kind path
        { id := id₁, project_id := pid, kind := kind, path := path,
          created_at_ms := t₁ } = true := by
      simp [artifactMatches]
    rw [find?_append_of_eq_none _ _ _ hfind]
    simp [List.find?_cons, hmatch]

/-! ## Claim C3: consent gate writes (upsert_consent, main.rs 737-809) -/

/-- Lookup of the current consent pair for a project; a missing row reads as
(false, false) (matching the SELECT + default in upsert_consent). -/
def readConsent (db : List ConsentRow) (pid : String) : Bool × Bool :=
  match db.find? (fun r => r.project_id = pid) with
  | some r => (r.consented, r.auto_confirm)
  | none => (false, false)

/-- INSERT ... ON CONFLICT(project_id) DO UPDATE for the consents table:
replace the (unique) row of the project, or append a fresh one. -/
def writeConsent : List ConsentRow → ConsentRow → List ConsentRow
  | [], r => [r]
  | c :: rest, r =>
    if c.project_id = r.project_id then r :: rest
    else c :: writeConsent rest r

/-- upsert_consent (the consent-merging core, after the project-existence
check): merge the optional request fields over the existing state, then
force auto_confirm to false whenever the resulting consented is false,
and upsert the row.  Returns the table after the write and the row that is
both persisted and returned to the caller. -/
def upsert_consent (db : List ConsentRow) (pid : String)
    (reqConsented reqAuto : Option Bool) (now : Int) :
    List ConsentRow × ConsentRow :=
  let existing := readConsent db pid
  let consented := reqConsented.getD existing.1
  let auto0 := reqAuto.getD existing.2
  let auto_confirm := if ¬consented then false else auto0
  let row : ConsentRow :=
    { project_id := pid, consented := consented,
      auto_confirm := auto_confirm, updated_at_ms := now }
  (writeConsent db row, row)

theorem find?_writeConsent (db : List ConsentRow) (r : ConsentRow) :
    (writeConsent db r).find? (fun x => x.project_id = r.project_id) = some r := by
  induction db with
  | nil => simp [writeConsent, List.find?_cons]
  | cons c rest ih =>
    by_cases hc : c.project_id = r.project_id
    · simp [writeConsent, hc, List.find?_cons]
    · simp [writeConsent, hc, List.find?_cons, ih]

theorem readConsent_writeConsent (db : List ConsentRow) (r : ConsentRow) :
    readConsent (writeConsent db r) r.project_id = (r.consented, r.auto_confirm) := by
  unfold readConsent
  rw [find?_writeConsent]

/-- Claim C3: after every upsert_consent write, over any existing consent
state and any combination of optional request fields, the returned row
satisfies auto_confirm implies consented (expressed as the Bool identity
auto_confirm = consented and auto_confirm), the persisted state read back
for the project coincides with the returned row, and a request that sets
consented to false always persists auto_confirm = false, regardless of the
requested auto_confirm and of any previously stored true value. -/
theorem upsert_consent_invariant (db : List ConsentRow) (pid : String)
    (reqConsented reqAuto : Option Bool) (now : Int) :
    ((upsert_consent db pid reqConsented reqAuto now).2.auto_confirm
        = ((upsert_consent db pid reqConsented reqAuto now).2.consented
            && (upsert_consent db pid reqConsented reqAuto now).2.auto_confirm))
    ∧ (readConsent (upsert_consent db pid reqConsented reqAuto now).1 pid
        = ((upsert_consent db pid reqConsented reqAuto now).2.consented,
           (upsert_consent db pid reqConsented reqAuto now).2.auto_confirm))
    ∧ ((upsert_consent db pid (some false) reqAuto now).2.auto_confirm = false) := by
  refine ⟨?_, ?_, ?_⟩
  · unfold upsert_consent
    cases hc : (reqConsented.getD (readConsent db pid).1) <;> simp [hc]
  · have h := readConsent_writeConsent db (upsert_consent db pid reqConsented reqAuto now).2
    unfold upsert_consent at h ⊢
    exact h
  · simp [upsert_consent]

/-! ## Claim C4: pool item deduplicating upsert (add_pool_item, main.rs 1299-1332) -/

/-- Predicate for the unique index idx_pool_items_dedup on
(project_id, dedup_key). -/
def poolKeyMatches (pid k : String) (it : PoolItem) : Bool :=
  it.project_id = pid ∧ it.dedup_key = k

/-- INSERT ... ON CONFLICT(project_id, dedup_key) DO UPDATE SET kind, title,
source_url, license, data_json, selected = excluded... : replace the
conflicting row in place, keeping its id and created_at_ms; with no
conflict, insert the new row.  The argument p carries the freshly drawn id
and the call timestamp used only in the insert case. -/
def add_pool_item_upsert (db : List PoolItem) (p : PoolItem) : List PoolItem :=
  match db with
  | [] => [p]
  | it :: rest =>
    if it.project_id = p.project_id ∧ it.dedup_key = p.dedup_key then
      { p with id := it.id, created_at_ms := it.created_at_ms } :: rest
    else it :: add_pool_item_upsert rest p

/-- Number of rows of a project with a given dedup key. -/
def poolCount (db : List PoolItem) (pid k : String) : Nat :=
  (db.filter (poolKeyMatches pid k)).length

/-- Read-back query of add_pool_item:
SELECT ... WHERE project_id = ?1 AND dedup_key = ?2 LIMIT 1. -/
def poolFind (db : List PoolItem) (pid k : String) : Option PoolItem :=
  db.find? (poolKeyMatches pid k)

theorem poolFind_eq_none_of_count_zero (db : List PoolItem) (pid k : String)
    (h : poolCount db pid k = 0) : poolFind db pid k = none := by
  rw [poolFind, List.find?_eq_none]
  intro x hx hpx
  have hmem : x ∈ db.filter (poolKeyMatches pid k) :=
    List.mem_filter.mpr ⟨hx, hpx⟩
  have hne : db.filter (poolKeyMatches pid k) ≠ [] := List.ne_nil_of_mem hmem
  rw [poolCount, List.length_eq_zero] at h
  exact hne h

theorem add_pool_item_upsert_of_count_zero (db : List PoolItem) (p : PoolItem)
    (h : poolCount db p.project_id p.dedup_key = 0) :
    add_pool_item_upsert db p = db ++ [p] := by
  induction db with
  | nil => rfl
  | cons it rest ih =>
    rw [poolCount, List.filter_cons] at h
    by_cases hit : it.project_id = p.project_id ∧ it.dedup_key = p.dedup_key
    · exfalso
      have : poolKeyMatches p.project_id p.dedup_key it = true := by
        simp [poolKeyMatches, hit.1, hit.2]
      simp [this] at h
    · have : poolKeyMatches p.project_id p.dedup_key it = false := by
        simp only [poolKeyMatches, decide_eq_false_iff_not]
        exact hit
      simp only [this, Bool.false_eq_true, if_false] at h
      rw [add_pool_item_upsert, if_neg hit, ih h]
      simp

theorem add_pool_item_upsert_step (db : List PoolItem) (s m : PoolItem)
    (hfind : poolFind db s.project_id s.dedup_key = some m) :
    poolFind (add_pool_item_upsert db s) s.project_id s.dedup_key
      = some { s with id := m.id, created_at_ms := m.created_at_ms }
    ∧ poolCount (add_pool_item_upsert db s) s.project_id s.dedup_key
      = poolCount db s.project_id s.dedup_key := by
  induction db with
  | nil => simp [poolFind] at hfind
  | cons it rest ih =>
    by_cases hit : it.project_id = s.project_id ∧ it.dedup_key = s.dedup_key
    · have hkey : poolKeyMatches s.project_id s.dedup_key it = true := by
        simp [poolKeyMatches, hit.1, hit.2]
      have hm : m = it := by
        rw [poolFind, List.find?_cons, hkey] at hfind
        exact (Option.some.injEq _ _).mp hfind.symm
      have hkey' : poolKeyMatches s.project_id s.dedup_key
          { s with id := it.id, created_at_ms := it.created_at_ms } = true := by
        simp [poolKeyMatches]
      constructor
      · rw [add_pool_item_upsert, if_pos hit, poolFind, List.find?_cons, hkey', hm]
      · rw [add_pool_item_upsert, if_pos hit, poolCount, poolCount,
          List.filter_cons, List.filter_cons, hkey, hkey']
        simp
    · have hkey : poolKeyMatches s.project_id s.dedup_key it = false := by
        simp only [poolKeyMatches, decide_eq_false_iff_not]
        exact hit
      rw [poolFind, List.find?_cons, hkey] at hfind
      simp only [Bool.false_eq_true] at hfind
      have ihh := ih hfind
      constructor
      · rw [add_pool_item_upsert, if_neg hit, poolFind, List.find?_cons, hkey]
        simpa using ihh.1
      · rw [add_pool_item_upsert, if_neg hit, poolCount, poolCount,
          List.filter_cons, List.filter_cons, hkey]
        simpa [poolCount] using ihh.2

theorem foldl_upsert_invariant (pid k i₀ : String) (t₀ : Int)
    (subs : List PoolItem) :
    ∀ (db : List PoolItem) (cur : PoolItem),
    (∀ s ∈ subs, s.project_id = pid ∧ s.dedup_key = k) →
    cur.project_id = pid → cur.dedup_key = k →
    poolCount db pid k = 1 →
    poolFind db pid k = some { cur with id := i₀, created_at_ms := t₀ } →
    poolCount (subs.foldl add_pool_item_upsert db) pid k = 1
    ∧ poolFind (subs.foldl add_pool_item_upsert db) pid k
        = some { (subs.getLastD cur) with id := i₀, created_at_ms := t₀ } := by
  induction subs with
  | nil =>
    intro db cur _ _ _ hcount hfind
    exact ⟨hcount, hfind⟩
  | cons s rest ih =>
    intro db cur hsubs hcp hck hcount hfind
    have hs := hsubs s (List.mem_cons_self s rest)
    have hfind' : poolFind db s.project_id s.dedup_key
        = some { cur with id := i₀, created_at_ms := t₀ } := by
      rw [hs.1, hs.2]; exact hfind
    have hstep := add_pool_item_upsert_step db s _ hfind'
    have hstep1 : poolFind (add_pool_item_upsert db s) pid k
        = some { s with id := i₀, created_at_ms := t₀ } := by
      rw [← hs.1, ← hs.2]
      exact hstep.1
    have hstep2 : poolCount (add_pool_item_upsert db s) pid k = 1 := by
      rw [← hs.1, ← hs.2] at hcount ⊢
      rw [hstep.2, hcount]
    have := ih (add_pool_item_upsert db s) s
      (fun x hx => hsubs x (List.mem_cons_of_mem s hx)) hs.1 hs.2 hstep2 hstep1
    rw [List.foldl_cons]
    refine ⟨this.1, ?_⟩
    rw [this.2, List.getLastD_cons]

/-- Claim C4: starting from any table with no row for (project, dedup_key),
any nonempty sequence of submissions resolving to that key leaves exactly
one such row, whose mutable fields (kind, title, source_url, license,
data_json, selected) are those of the most recent submission while its id
and created_at_ms are the ones of the first insertion. -/
theorem add_pool_item_upsert_dedup (db₀ : List PoolItem) (pid k : String)
    (first : PoolItem) (rest : List PoolItem)
    (h₀ : poolCount db₀ pid k = 0)
    (hf : first.project_id = pid ∧ first.dedup_key = k)
    (hr : ∀ s ∈ rest, s.project_id = pid ∧ s.dedup_key = k) :
    poolCount (rest.foldl add_pool_item_upsert (add_pool_item_upsert db₀ first)) pid k = 1
    ∧ poolFind (rest.foldl add_pool_item_upsert (add_pool_item_upsert db₀ first)) pid k
        = some { (rest.getLastD first) with
                   id := first.id, created_at_ms := first.created_at_ms } := by
  have h₀' : poolCount db₀ first.project_id first.dedup_key = 0 := by
    rw [hf.1, hf.2]; exact h₀
  have hins := add_pool_item_upsert_of_count_zero db₀ first h₀'
  have hnone : poolFind db₀ pid k = none := poolFind_eq_none_of_count_zero db₀ pid k h₀
  have hkey : poolKeyMatches pid k first = true := by
    simp [poolKeyMatches, hf.1, hf.2]
  have hfind1 : poolFind (add_pool_item_upsert db₀ first) pid k = some first := by
    rw [hins, poolFind, find?_append_of_eq_none _ _ _ hnone, List.find?_cons, hkey]
  have hcount1 : poolCount (add_pool_item_upsert db₀ first) pid k = 1 := by
    rw [hins, poolCount, List.filter_append, List.filter_cons, hkey]
    rw [poolCount] at h₀
    simp [h₀]
  have hfind1' : poolFind (add_pool_item_upsert db₀ first) pid k
      = some { first with id := first.id, created_at_ms := first.created_at_ms } := by
    rw [hfind1]
  exact foldl_upsert_invariant pid k first.id first.created_at_ms rest
    (add_pool_item_upsert db₀ first) first hr hf.1 hf.2 hcount1 hfind1'

/-- Concrete run of the C4 theorem: two submissions under the same key on an
empty table leave one row carrying the second submission's fields and the
first submission's id and timestamp. -/
theorem add_pool_item_upsert_dedup_witness :
    poolCount ([PoolItem.mk ("id2") ("p") ("video") none none none ("K") none false 7]
        |>.foldl add_pool_item_upsert
          (add_pool_item_upsert []
            (PoolItem.mk ("id1") ("p") ("link") none none none ("K") none true 3)))
      ("p") ("K") = 1
    ∧ poolFind ([PoolItem.mk ("id2") ("p") ("video") none none none ("K") none false 7]
        |>.foldl add_pool_item_upsert
          (add_pool_item_upsert []
            (PoolItem.mk ("id1") ("p") ("link") none none none ("K") none true 3)))
      ("p") ("K")
      = some (PoolItem.mk ("id1") ("p") ("video") none none none ("K") none false 3) :=
  by
  have h := add_pool_item_upsert_dedup [] ("p") ("K")
    (PoolItem.mk ("id1") ("p") ("link") none none none ("K") none true 3)
    [PoolItem.mk ("id2") ("p") ("video") none none none ("K") none false 7]
    (by decide) (by decide) (by decide)
  simpa using h

/-! ## Claim C5: dedup key resolution (add_pool_item, main.rs 1241-1285) -/

/-- normalize_url_for_dedup (main.rs 1241-1246): trim, drop everything from
the first '#', strip trailing slashes, lower-case. -/
def normalize_url_for_dedup (url : String) : String :=
  let trimmed := trimChars url.toList
  let no_hash := (splitChar '#' trimmed).headD trimmed
  let no_trailing := trimEndMatches '/' no_hash
  ⟨no_trailing.map Char.toLower⟩

/-- The effective source URL of an add_pool_item request
(main.rs 1263-1267): source_url falls back to url, is trimmed, and empty
strings count as absent. -/
def add_pool_item_source_url (source_url url : Option String) : Option String :=
  ((source_url.or url).map rustTrim).filter (fun s => s != "")

/-- Dedup key resolution of add_pool_item (main.rs 1270-1275): an explicit
key (trimmed, empty treated as absent) wins; else a prefixed normalized
source URL; else a prefixed fresh random UUID. -/
def resolve_dedup_key (explicit : Option String) (source_url : Option String)
    (freshUuid : String) : String :=
  match (explicit.map rustTrim).filter (fun s => s != "") with
  | some k => k
  | none =>
    match source_url with
    | some u => "url:" ++ normalize_url_for_dedup u
    | none => "random:" ++ freshUuid

theorem length_dropWhile_le {α} (p : α → Bool) (l : List α) :
    (l.dropWhile p).length ≤ l.length := by
  induction l with
  | nil => simp
  | cons x xs ih =>
    cases hx : p x with
    | true =>
      simp only [List.dropWhile_cons, hx, if_true, List.length_cons]
      omega
    | false => simp [List.dropWhile_cons, hx]

theorem dropWhile_head_false {α} (p : α → Bool) (c : α) (l : List α)
    (h : (c :: l).dropWhile p = c :: l) : p c = false := by
  cases hc : p c with
  | false => rfl
  | true =>
    exfalso
    rw [List.dropWhile_cons, hc, if_pos rfl] at h
    have hle := length_dropWhile_le p l
    rw [h] at hle
    simp at hle

theorem dropWhile_append_fix {α} (p : α → Bool) (L M : List α)
    (hL : L.dropWhile p = L) (hM : M.dropWhile p = M) :
    (L ++ M).dropWhile p = L ++ M := by
  cases L with
  | nil => simpa using hM
  | cons c L' =>
    have hc : p c = false := dropWhile_head_false p c L' hL
    simp [List.dropWhile_cons, hc]

theorem dropWhile_append_stop {α} (p : α → Bool) (xs : List α) (y : α)
    (hy : p y = false) (ys : List α) :
    (xs ++ y :: ys).dropWhile p = xs.dropWhile p ++ y :: ys := by
  induction xs with
  | nil => simp [List.dropWhile_cons, hy]
  | cons x xs' ih =>
    cases hx : p x with
    | true => simp [List.dropWhile_cons, hx, ih]
    | false => simp [List.dropWhile_cons, hx]

theorem dropWhile_idem {α} (p : α → Bool) (l : List α) :
    (l.dropWhile p).dropWhile p = l.dropWhile p := by
  induction l with
  | nil => simp
  | cons x xs ih =>
    cases hx : p x with
    | true => simpa [List.dropWhile_cons, hx] using ih
    | false => simp [List.dropWhile_cons, hx]

theorem dropWhile_endTrim_fix {α} (p : α → Bool) (l : List α)
    (h : l.dropWhile p = l) :
    ((l.reverse.dropWhile p).reverse).dropWhile p = (l.reverse.dropWhile p).reverse := by
  cases l with
  | nil => simp
  | cons c t =>
    have hc : p c = false := dropWhile_head_false p c t h
    have hsplit : ((c :: t).reverse).dropWhile p = t.reverse.dropWhile p ++ [c] := by
      rw [List.reverse_cons]
      simpa using dropWhile_append_stop p t.reverse c hc []
    rw [hsplit, List.reverse_append]
    simp only [List.reverse_cons, List.reverse_nil, List.nil_append, List.singleton_append]
    simp [List.dropWhile_cons, hc]

theorem trimChars_idem (l : List Char) : trimChars (trimChars l) = trimChars l := by
  unfold trimChars
  have h1 : (((l.dropWhile Char.isWhitespace).reverse.dropWhile Char.isWhitespace).reverse).dropWhile Char.isWhitespace
      = ((l.dropWhile Char.isWhitespace).reverse.dropWhile Char.isWhitespace).reverse :=
    dropWhile_endTrim_fix Char.isWhitespace (l.dropWhile Char.isWhitespace)
      (dropWhile_idem Char.isWhitespace l)
  rw [h1, List.reverse_reverse, dropWhile_idem]

theorem splitCharAux_no_sep (sep : Char) (xs : List Char) (h : sep ∉ xs) :
    ∀ acc, splitCharAux sep xs acc = [acc.reverse ++ xs] := by
  induction xs with
  | nil => intro acc; simp [splitCharAux]
  | cons x xs' ih =>
    intro acc
    have hx : ¬x = sep := fun he => h (he ▸ List.mem_cons_self x xs')
    rw [splitCharAux, if_neg hx, ih (fun hm => h (List.mem_cons_of_mem x hm)) (x :: acc)]
    simp

theorem splitChar_no_sep (sep : Char) (xs : List Char) (h : sep ∉ xs) :
    splitChar sep xs = [xs] := by
  simpa using splitCharAux_no_sep sep xs h []

theorem splitCharAux_first (sep : Char) (xs : List Char) (h : sep ∉ xs)
    (rest : List Char) :
    ∀ acc, splitCharAux sep (xs ++ sep :: rest) acc
      = (acc.reverse ++ xs) :: splitChar sep rest := by
  induction xs with
  | nil =>
    intro acc
    simp [splitCharAux, splitChar]
  | cons x xs' ih =>
    intro acc
    have hx : ¬x = sep := fun he => h (he ▸ List.mem_cons_self x xs')
    rw [List.cons_append, splitCharAux, if_neg hx,
      ih (fun hm => h (List.mem_cons_of_mem x hm)) (x :: acc)]
    simp

theorem splitChar_first (sep : Char) (xs : List Char) (h : sep ∉ xs)
    (rest : List Char) :
    splitChar sep (xs ++ sep :: rest) = xs :: splitChar sep rest := by
  simpa [splitChar] using splitCharAux_first sep xs h rest []

theorem trimEndMatches_append_self (c : Char) (l : List Char) :
    trimEndMatches c (l ++ [c]) = trimEndMatches c l := by
  unfold trimEndMatches
  rw [List.reverse_append]
  simp [List.dropWhile_cons]

/-- The trimmed character list of base ++ "/#" ++ frag, for a '#'-free,
already-trimmed base: the base survives unchanged, the fragment only has
its trailing whitespace removed. -/
theorem trimChars_slash_fragment (base frag : String)
    (hd : base.toList.dropWhile Char.isWhitespace = base.toList) :
    trimChars (base ++ ("/#") ++ frag).toList
      = base.toList ++ '/' :: '#' ::
          ((frag.toList.reverse.dropWhile Char.isWhitespace).reverse) := by
  have htl : (base ++ ("/#") ++ frag).toList
      = base.toList ++ '/' :: '#' :: frag.toList := by
    show (base ++ ("/#") ++ frag).data = base.data ++ '/' :: '#' :: frag.data
    rw [String.data_append, String.data_append, List.append_assoc]
    rfl
  rw [htl]
  unfold trimChars
  have hM : ('/' :: '#' :: frag.toList).dropWhile Char.isWhitespace
      = '/' :: '#' :: frag.toList := by
    simp [List.dropWhile_cons]
  rw [dropWhile_append_fix Char.isWhitespace _ _ hd hM]
  have hrev : (base.toList ++ '/' :: '#' :: frag.toList).reverse
      = frag.toList.reverse ++ '#' :: '/' :: base.toList.reverse := by
    simp
  rw [hrev, dropWhile_append_stop Char.isWhitespace _ '#' (by decide) _]
  simp

/-- Core of the C5 merge scenario: appending a trailing slash plus a URL
fragment to a trimmed, '#'-free base does not change the normalized dedup
URL. -/
theorem normalize_slash_fragment (base frag : String)
    (hd : base.toList.dropWhile Char.isWhitespace = base.toList)
    (ht : base.toList.reverse.dropWhile Char.isWhitespace = base.toList.reverse)
    (hh : ('#') ∉ base.toList) :
    normalize_url_for_dedup (base ++ ("/#") ++ frag) = normalize_url_for_dedup base := by
  unfold normalize_url_for_dedup
  apply congrArg String.mk
  apply congrArg (List.map Char.toLower)
  rw [trimChars_slash_fragment base frag hd]
  have htb : trimChars base.toList = base.toList := by
    unfold trimChars
    rw [hd, ht, List.reverse_reverse]
  rw [htb]
  have hsplit2 : splitChar '#' base.toList = [base.toList] :=
    splitChar_no_sep '#' base.toList hh
  have hxs : ('#') ∉ base.toList ++ ['/'] := by
    intro hm
    rcases List.mem_append.mp hm with hm1 | hm2
    · exact hh hm1
    · simp at hm2
  have hsplit1 : splitChar '#'
      (base.toList ++ '/' :: '#' ::
        ((frag.toList.reverse.dropWhile Char.isWhitespace).reverse))
      = (base.toList ++ ['/']) :: splitChar '#'
          ((frag.toList.reverse.dropWhile Char.isWhitespace).reverse) := by
    have := splitChar_first '#' (base.toList ++ ['/']) hxs
      ((frag.toList.reverse.dropWhile Char.isWhitespace).reverse)
    simpa using this
  rw [hsplit1, hsplit2]
  simp only [List.headD_cons]
  exact trimEndMatches_append_self '/' base.toList

theorem normalize_rustTrim (s : String) :
    normalize_url_for_dedup (rustTrim s) = normalize_url_for_dedup s := by
  unfold normalize_url_for_dedup rustTrim
  have : (String.mk (trimChars s.toList)).toList = trimChars s.toList := rfl
  rw [this, trimChars_idem]

theorem add_pool_item_upsert_fresh (db₀ : List PoolItem) (p : PoolItem)
    (pid k : String) (hp : p.project_id = pid) (hk : p.dedup_key = k)
    (h₀ : poolCount db₀ pid k = 0) :
    poolCount (add_pool_item_upsert db₀ p) pid k = 1
    ∧ poolFind (add_pool_item_upsert db₀ p) pid k = some p := by
  have h₀' : poolCount db₀ p.project_id p.dedup_key = 0 := by
    rw [hp, hk]; exact h₀
  have hins := add_pool_item_upsert_of_count_zero db₀ p h₀'
  have hnone : poolFind db₀ pid k = none := poolFind_eq_none_of_count_zero db₀ pid k h₀
  have hkey : poolKeyMatches pid k p = true := by
    simp [poolKeyMatches, hp, hk]
  constructor
  · rw [hins, poolCount, List.filter_append, List.filter_cons, hkey]
    rw [poolCount] at h₀
    simp [h₀]
  · rw [hins, poolFind, find?_append_of_eq_none _ _ _ hnone, List.find?_cons, hkey]

theorem rustTrim_slash_fragment_ne_empty (base frag : String)
    (hd : base.toList.dropWhile Char.isWhitespace = base.toList) :
    (rustTrim (base ++ ("/#") ++ frag) != "") = true := by
  rw [bne_iff_ne]
  intro hc
  have hdata := congrArg String.data hc
  rw [rustTrim] at hdata
  have : trimChars (base ++ ("/#") ++ frag).toList = [] := hdata
  rw [trimChars_slash_fragment base frag hd] at this
  exact List.append_ne_nil_of_right_ne_nil _ (by simp) this

/-- Claim C5 counterexample: the claim says a non-empty explicit
caller-supplied key is used as-is, but add_pool_item trims it first: the
explicit key " k " (non-empty) resolves to "k", not to " k ". -/
theorem resolve_dedup_key_trims_explicit :
    resolve_dedup_key (some (" k ")) none ("u0") = "k"
    ∧ resolve_dedup_key (some (" k ")) none ("u0") ≠ " k " := by
  constructor
  · rfl
  · intro h
    exact absurd h (by decide)

/-- Claim C5 (amended): dedup key resolution order.  An explicit key that is
non-empty after trimming is used in trimmed form; otherwise a present
source URL yields the prefixed normalized URL; otherwise a prefixed fresh
random key.  Two submissions without explicit keys whose source URLs differ
only by a trailing slash plus URL fragment resolve to the same key (for a
trimmed, '#'-free, non-empty base) and merge into a single row, while two
submissions with no key and no URL receive distinct keys whenever their
fresh UUIDs are distinct. -/
theorem resolve_dedup_key_resolution (k : String) (su : Option String)
    (fresh base frag uuid₁ uuid₂ : String)
    (hk : rustTrim k ≠ "")
    (hd : base.toList.dropWhile Char.isWhitespace = base.toList)
    (ht : base.toList.reverse.dropWhile Char.isWhitespace = base.toList.reverse)
    (hh : ('#') ∉ base.toList)
    (hbase : base ≠ "")
    (hu : uuid₁ ≠ uuid₂) :
    resolve_dedup_key (some k) su fresh = rustTrim k
    ∧ (∀ u f, resolve_dedup_key none (some u) f = "url:" ++ normalize_url_for_dedup u)
    ∧ (∀ f, resolve_dedup_key none none f = "random:" ++ f)
    ∧ resolve_dedup_key none
        (add_pool_item_source_url (some (base ++ ("/#") ++ frag)) none) uuid₁
      = resolve_dedup_key none (add_pool_item_source_url (some base) none) uuid₂
    ∧ (∀ (db₀ : List PoolItem) (pid key : String) (i₁ i₂ : PoolItem),
        poolCount db₀ pid key = 0 →
        i₁.project_id = pid → i₁.dedup_key = key →
        i₂.project_id = pid → i₂.dedup_key = key →
        poolCount (add_pool_item_upsert (add_pool_item_upsert db₀ i₁) i₂) pid key = 1)
    ∧ resolve_dedup_key none none uuid₁ ≠ resolve_dedup_key none none uuid₂ := by
  have htrim : rustTrim base = base := by
    rw [rustTrim]
    apply String.ext
    show trimChars base.toList = base.toList
    unfold trimChars
    rw [hd, ht, List.reverse_reverse]
  refine ⟨?_, ?_, ?_, ?_, ?_, ?_⟩
  · rw [resolve_dedup_key.eq_def]
    have hfil : ((some k).map rustTrim).filter (fun s => s != "") = some (rustTrim k) := by
      simp [Option.filter, bne_iff_ne, hk]
    rw [hfil]
  · intro u f; rfl
  · intro f; rfl
  · have h1 : add_pool_item_source_url (some (base ++ ("/#") ++ frag)) none
        = some (rustTrim (base ++ ("/#") ++ frag)) := by
      rw [add_pool_item_source_url]
      simp [Option.filter, Option.or, rustTrim_slash_fragment_ne_empty base frag hd]
    have h2 : add_pool_item_source_url (some base) none = some base := by
      rw [add_pool_item_source_url]
      simp [Option.filter, Option.or, htrim, hbase]
    rw [h1, h2]
    show ("url:" ++ normalize_url_for_dedup (rustTrim (base ++ ("/#") ++ frag)))
      = "url:" ++ normalize_url_for_dedup base
    rw [normalize_rustTrim, normalize_slash_fragment base frag hd ht hh]
  · intro db₀ pid key i₁ i₂ h0 h1p h1k h2p h2k
    have hf1 := add_pool_item_upsert_fresh db₀ i₁ pid key h1p h1k h0
    have hfind' : poolFind (add_pool_item_upsert db₀ i₁) i₂.project_id i₂.dedup_key
        = some i₁ := by
      rw [h2p, h2k]; exact hf1.2
    have hstep := add_pool_item_upsert_step (add_pool_item_upsert db₀ i₁) i₂ i₁ hfind'
    have hc := hstep.2
    rw [h2p, h2k] at hc
    rw [hc, hf1.1]
  · intro hc
    apply hu
    have hc' : ("random:" ++ uuid₁) = "random:" ++ uuid₂ := hc
    have hdata := congrArg String.data hc'
    rw [String.data_append, String.data_append] at hdata
    exact String.ext (List.append_cancel_left hdata)

/-- Concrete run of the C5 theorem: with base https://Example.com/a and
fragment sec, the trailing-slash-plus-fragment variant resolves to the same
dedup key as the bare URL. -/
theorem resolve_dedup_key_resolution_witness :
    resolve_dedup_key none
        (add_pool_item_source_url (some ("https://Example.com/a" ++ ("/#") ++ "sec")) none) ("u1")
      = resolve_dedup_key none (add_pool_item_source_url (some ("https://Example.com/a")) none) ("u2") :=
  (resolve_dedup_key_resolution (" mykey ") none ("f") ("https://Example.com/a")
    ("sec") ("u1") ("u2") (by decide) (by decide) (by decide) (by decide)
    (by decide) (by decide)).2.2.2.1

/-! ## Claim C6: consent gate at the remote resolver boundary
(import_remote_media, main.rs 2030-2222) -/

/-- Rust str::starts_with on character lists. -/
def listStartsWith : List Char → List Char → Bool
  | _, [] => true
  | [], _ :: _ => false
  | c :: cs, p :: ps => if c = p then listStartsWith cs ps else false

/-- Rust str::starts_with lifted to String. -/
def strStartsWith (s pre : String) : Bool :=
  listStartsWith s.toList pre.toList

/-- The parts of AppState that import_remote_media consults, plus the
projects and consents tables. -/
structure ServerState where
  projects : List String
  consents : List ConsentRow
  ffmpeg : Bool
  ffprobe : Bool
  ytdlp : Bool
deriving DecidableEq

/-- Consent check of import_remote_media (main.rs 2082-2087):
SELECT consented FROM consents ... .optional().unwrap_or(false) — a missing
row reads as not consented. -/
def consentedLookup (db : List ConsentRow) (pid : String) : Bool :=
  ((db.find? (fun r => r.project_id = pid)).map (fun r => r.consented)).getD false

/-- Outcome of import_remote_media up to its first side effect.  proceed
marks that control reached the yt-dlp resolver invocation (main.rs 2095),
the first store/filesystem-mutating step; every other constructor is an
early return that performs no mutation. -/
inductive ImportOutcome where
  | badRequest (msg : String)
  | notFound
  | preconditionFailed (msg : String)
  | proceed (url : String) (download : Bool)
deriving DecidableEq

/-- import_remote_media up to the resolver invocation, in source order:
project-id and url validation, yt-dlp availability, ffmpeg availability
when downloading, project existence, then the consent gate. -/
def import_remote_media (st : ServerState) (pid rawUrl : String)
    (download? : Option Bool) : ImportOutcome :=
  if rustTrim pid = "" then .badRequest ("missing project id")
  else
    let url := rustTrim rawUrl
    if url = "" then .badRequest ("missing url")
    else if !(strStartsWith url ("http://") || strStartsWith url ("https://")) then
      .badRequest ("url must start with http:// or https://")
    else if !st.ytdlp then
      .preconditionFailed ("yt-dlp not found; install yt-dlp (and restart toolserver) to enable URL resolve/download")
    else
      let download := download?.getD false
      if download && !st.ffmpeg then
        .preconditionFailed ("ffmpeg not found on PATH; install ffmpeg to enable URL downloads (mp4 merge)")
      else if !(st.projects.contains pid) then .notFound
      else if !(consentedLookup st.consents pid) then
        .preconditionFailed ("consent required: save URL and confirm consent first")
      else .proceed url download

/-- Claim C6: for every existing project whose consent row is absent or has
consented = false, a well-formed import_remote_media request ends in a
precondition-failed error, never reaching the resolver invocation (and
hence performing no store or filesystem mutation, which in the source only
happens at or after that point); and a missing consent row indeed reads as
consented = false. -/
theorem import_remote_media_consent_gate (st : ServerState)
    (pid rawUrl : String) (download? : Option Bool)
    (hpid : rustTrim pid ≠ "")
    (hurl : rustTrim rawUrl ≠ "")
    (hscheme : (strStartsWith (rustTrim rawUrl) ("http://")
        || strStartsWith (rustTrim rawUrl) ("https://")) = true)
    (hproj : st.projects.contains pid = true)
    (hconsent : consentedLookup st.consents pid = false) :
    (∃ msg, import_remote_media st pid rawUrl download? = .preconditionFailed msg)
    ∧ (st.consents.find? (fun r => r.project_id = pid) = none →
        consentedLookup st.consents pid = false)
    ∧ (∀ u d, import_remote_media st pid rawUrl download? ≠ .proceed u d) := by
  have hmain : ∃ msg,
      import_remote_media st pid rawUrl download? = .preconditionFailed msg := by
    unfold import_remote_media
    have hmem : pid ∈ st.projects := by simpa using hproj
    cases hyt : st.ytdlp with
    | false =>
      exact ⟨("yt-dlp not found; install yt-dlp (and restart toolserver) to enable URL resolve/download"),
        by simp [hpid, hurl, hscheme, hyt]⟩
    | true =>
      cases hff : st.ffmpeg with
      | true =>
        exact ⟨("consent required: save URL and confirm consent first"),
          by simp [hpid, hurl, hscheme, hyt, hff, hmem, hconsent]⟩
      | false =>
        cases hdl : download?.getD false with
        | true =>
          exact ⟨("ffmpeg not found on PATH; install ffmpeg to enable URL downloads (mp4 merge)"),
            by simp [hpid, hurl, hscheme, hyt, hff, hdl]⟩
        | false =>
          exact ⟨("consent required: save URL and confirm consent first"),
            by simp [hpid, hurl, hscheme, hyt, hff, hdl, hmem, hconsent]⟩
  refine ⟨hmain, fun h => by simp [consentedLookup, h], ?_⟩
  intro u d hc
  rcases hmain with ⟨msg, hmsg⟩
  rw [hmsg] at hc
  exact ImportOutcome.noConfusion hc

/-- Concrete run of the C6 theorem: an existing project with no consent row
gets precondition-failed from a valid remote-media request. -/
theorem import_remote_media_consent_gate_witness :
    ∃ msg, import_remote_media (ServerState.mk [("p1")] [] true true true)
      ("p1") ("https://vid.example/watch?v=1") none = .preconditionFailed msg :=
  (import_remote_media_consent_gate (ServerState.mk [("p1")] [] true true true)
    ("p1") ("https://vid.example/watch?v=1") none
    (by decide) (by decide) (by decide) (by decide) (by decide)).1

/-! ## Claim C8: derivation pipeline clip anchors
(ffmpeg_pipeline, main.rs 2436-2521) -/

/-- The fixed clip length (main.rs 2444), modelled over the rationals in
place of f64; the claim's arithmetic is exact in either structure. -/
def clip_len_s : ℚ := 6

/-- Duration extraction (main.rs 2437-2442): format.duration parsed from a
string, 0.0 when missing or unparseable; the model takes the parse result
directly. -/
def ffprobe_duration (parsed : Option ℚ) : ℚ :=
  parsed.getD 0

/-- The three clip anchor offsets start/mid/end of ffmpeg_pipeline
(main.rs 2445-2451). -/
def clip_offsets (duration_s : ℚ) : ℚ × ℚ × ℚ :=
  (0,
   max (duration_s / 2 - clip_len_s / 2) 0,
   if duration_s > clip_len_s then max (duration_s - clip_len_s) 0 else 0)

/-- The out-dir-relative clip targets, one per anchor (main.rs 2453-2465):
note that coinciding offsets are not deduplicated — three entries always. -/
def clip_specs (d : ℚ) (outDirRel : String) : List (ℚ × String) :=
  [((clip_offsets d).1, outDirRel ++ "/clip_start.mp4"),
   ((clip_offsets d).2.1, outDirRel ++ "/clip_mid.mp4"),
   ((clip_offsets d).2.2, outDirRel ++ "/clip_end.mp4")]

/-- The thumbnail targets, one per anchor (main.rs 2457-2459, 2496). -/
def thumb_specs (d : ℚ) (outDirRel : String) : List (ℚ × String) :=
  [((clip_offsets d).1, outDirRel ++ "/thumb_start.jpg"),
   ((clip_offsets d).2.1, outDirRel ++ "/thumb_mid.jpg"),
   ((clip_offsets d).2.2, outDirRel ++ "/thumb_end.jpg")]

/-- Claim C8: for every duration d (defaulting to 0 when unparseable) the
pipeline computes exactly the anchors start = 0, mid = max(0, d/2 - 3) and
end = max(0, d - 6) for d > 6 and 0 otherwise, and always produces three
clip targets and three thumbnail targets, with coinciding offsets (as for
d = 0) not deduplicated. -/
theorem ffmpeg_pipeline_clip_anchors (d : ℚ) (outDirRel : String) :
    (clip_offsets d).1 = 0
    ∧ (clip_offsets d).2.1 = max 0 (d / 2 - 3)
    ∧ (clip_offsets d).2.2 = (if d > 6 then max 0 (d - 6) else 0)
    ∧ ffprobe_duration none = 0
    ∧ (clip_specs d outDirRel).length = 3
    ∧ (thumb_specs d outDirRel).length = 3
    ∧ clip_offsets 0 = (0, 0, 0) := by
  refine ⟨rfl, ?_, ?_, rfl, rfl, rfl, ?_⟩
  · show max (d / 2 - clip_len_s / 2) 0 = max 0 (d / 2 - 3)
    rw [max_comm]
    norm_num [clip_len_s]
  · show (if d > clip_len_s then max (d - clip_len_s) 0 else 0)
        = (if d > 6 then max 0 (d - 6) else 0)
    rw [clip_len_s]
    split
    · rw [max_comm]
    · rfl
  · show (0, max ((0 : ℚ) / 2 - clip_len_s / 2) 0,
        if (0 : ℚ) > clip_len_s then max (0 - clip_len_s) 0 else 0) = (0, 0, 0)
    norm_num [clip_len_s]

/-! ## Claims C9 and C10: path sanitizers
(sanitize_file_name, main.rs 1822-1839; sanitize_out_path, main.rs
1488-1504; create_text_artifact, main.rs 1506-1569; download_export_file,
main.rs 3402-3434) -/

/-- The character set sanitize_file_name keeps:
ch.is_ascii_alphanumeric() or '.', '-', '_'. -/
def allowedChar (c : Char) : Bool :=
  c.isAlphanum || c == '.' || c == '-' || c == '_'

/-- The per-character step of sanitize_file_name: keep allowed characters,
replace everything else with '_'. -/
def sanitizeMapChar (c : Char) : Char :=
  if allowedChar c then c else '_'

/-- sanitize_file_name before the empty-fallback: map characters, then
strip every leading '.'. -/
def sanitize_file_name_chars (name : List Char) : List Char :=
  (name.map sanitizeMapChar).dropWhile (· = '.')

/-- sanitize_file_name (main.rs 1822-1839): sanitize characters, strip
leading dots, fall back to "video" when nothing remains. -/
def sanitize_file_name (name : String) : String :=
  let stripped := sanitize_file_name_chars name.toList
  if stripped.isEmpty then "video" else ⟨stripped⟩

/-- The component pipeline of sanitize_out_path (main.rs 1488-1497):
backslashes to slashes, split on '/', trim, drop empties and dot
components, sanitize each component, drop empties again. -/
def sanitize_out_parts (out_path : String) : List String :=
  let normalized := out_path.toList.map (fun c => if c = '\\' then '/' else c)
  ((((splitChar '/' normalized).map trimChars).filter
      (fun piece => piece != ([] : List Char))
    |>.filter (fun piece => piece != ['.'] && piece != ['.', '.']))
    |>.map (fun piece => sanitize_file_name ⟨piece⟩)).filter (fun s => s != "")

/-- sanitize_out_path (main.rs 1488-1504): None when no usable component
remains, else the components joined with '/'. -/
def sanitize_out_path (out_path : String) : Option String :=
  let parts := sanitize_out_parts out_path
  if parts.isEmpty then none else some (String.intercalate ("/") parts)

/-- Sequential resolution of path components against a directory stack:
"." is a no-op, ".." pops, a normal component descends.  Used to express
that sanitized paths cannot traverse out of their base directory. -/
def normalizePath (comps : List String) : List String :=
  comps.foldl
    (fun acc c => if c = "." then acc else if c = ".." then acc.dropLast else acc ++ [c])
    []

theorem mem_of_mem_dropWhile {α} (p : α → Bool) (l : List α) (a : α)
    (h : a ∈ l.dropWhile p) : a ∈ l := by
  induction l with
  | nil => simp at h
  | cons x xs ih =>
    rw [List.dropWhile_cons] at h
    by_cases hx : p x = true
    · rw [if_pos hx] at h
      exact List.mem_cons_of_mem x (ih h)
    · rw [if_neg hx] at h
      exact h

theorem head?_dropWhile_ne {α} (p : α → Bool) (l : List α) (a : α)
    (h : (l.dropWhile p).head? = some a) : p a = false := by
  induction l with
  | nil => simp at h
  | cons x xs ih =>
    rw [List.dropWhile_cons] at h
    by_cases hx : p x = true
    · rw [if_pos hx] at h
      exact ih h
    · rw [if_neg hx] at h
      simp only [List.head?_cons, Option.some.injEq] at h
      rw [← h]
      exact Bool.eq_false_iff.mpr hx

theorem allowedChar_sanitizeMapChar (c : Char) :
    allowedChar (sanitizeMapChar c) = true := by
  by_cases h : allowedChar c = true
  · rw [sanitizeMapChar, if_pos h]; exact h
  · rw [sanitizeMapChar, if_neg h]; decide

/-- Bundled output properties of sanitize_file_name: non-empty, only
allowed characters, no leading dot, hence never "." or "..", and the
"video" fallback exactly when nothing usable remains. -/
theorem sanitize_file_name_props (name : String) :
    sanitize_file_name name ≠ ""
    ∧ (∀ c ∈ (sanitize_file_name name).toList, allowedChar c = true)
    ∧ (sanitize_file_name name).toList.head? ≠ some ('.')
    ∧ sanitize_file_name name ≠ "."
    ∧ sanitize_file_name name ≠ ".."
    ∧ (sanitize_file_name_chars name.toList = [] →
        sanitize_file_name name = "video") := by
  have hmain : sanitize_file_name name ≠ ""
      ∧ (∀ c ∈ (sanitize_file_name name).toList, allowedChar c = true)
      ∧ (sanitize_file_name name).toList.head? ≠ some ('.') := by
    rw [sanitize_file_name]
    by_cases he : (sanitize_file_name_chars name.toList).isEmpty = true
    · rw [if_pos he]
      refine ⟨by decide, ?_, by decide⟩
      intro c hc
      fin_cases hc <;> decide
    · rw [if_neg he]
      have hne : sanitize_file_name_chars name.toList ≠ [] := by
        simpa [List.isEmpty_iff] using he
      refine ⟨?_, ?_, ?_⟩
      · intro hcon
        apply hne
        have : (String.mk (sanitize_file_name_chars name.toList)).data = ("" : String).data :=
          congrArg String.data hcon
        exact this
      · intro c hc
        have hc' : c ∈ sanitize_file_name_chars name.toList := hc
        have hmem : c ∈ name.toList.map sanitizeMapChar :=
          mem_of_mem_dropWhile _ _ c hc'
        rcases List.mem_map.mp hmem with ⟨a, _, ha⟩
        rw [← ha]
        exact allowedChar_sanitizeMapChar a
      · intro hcon
        have hc' : (sanitize_file_name_chars name.toList).head? = some ('.') := hcon
        have := head?_dropWhile_ne (fun c => c = '.') (name.toList.map sanitizeMapChar) '.' hc'
        simp at this
  refine ⟨hmain.1, hmain.2.1, hmain.2.2, ?_, ?_, ?_⟩
  · intro hcon
    apply hmain.2.2
    rw [hcon]
    rfl
  · intro hcon
    apply hmain.2.2
    rw [hcon]
    rfl
  · intro hnil
    rw [sanitize_file_name, if_pos (by simpa [List.isEmpty_iff] using hnil)]

theorem normalizePath_foldl_normal (parts : List String)
    (h : ∀ p ∈ parts, p ≠ "." ∧ p ≠ "..") :
    ∀ acc, parts.foldl
        (fun acc c => if c = "." then acc else if c = ".." then acc.dropLast else acc ++ [c])
        acc = acc ++ parts := by
  induction parts with
  | nil => intro acc; simp
  | cons p ps ih =>
    intro acc
    have hp := h p (List.mem_cons_self p ps)
    rw [List.foldl_cons, if_neg hp.1, if_neg hp.2,
      ih (fun x hx => h x (List.mem_cons_of_mem p hx)) (acc ++ [p])]
    simp

theorem normalizePath_append_normal (base parts : List String)
    (hb : ∀ p ∈ base, p ≠ "." ∧ p ≠ "..")
    (h : ∀ p ∈ parts, p ≠ "." ∧ p ≠ "..") :
    normalizePath (base ++ parts) = base ++ parts := by
  rw [normalizePath, List.foldl_append, normalizePath_foldl_normal parts h]
  have hbase := normalizePath_foldl_normal base hb []
  rw [hbase]
  simp

/-- Claim C9: whenever sanitize_out_path accepts an input, the result is the
'/'-join of components that are non-empty, drawn from ASCII alphanumerics
plus '.', '-', '_', never equal to "." or "..", and never starting with
'.'; consequently the out-relative path that create_text_artifact writes
(projects/{pid}/out/{safe}) resolves to exactly its own components — no
".." ever climbs out of the project's out directory. -/
theorem sanitize_out_path_safe (s out pid : String)
    (hs : sanitize_out_path s = some out)
    (hpid1 : pid ≠ (".")) (hpid2 : pid ≠ ("..")) :
    sanitize_out_parts s ≠ []
    ∧ out = String.intercalate ("/") (sanitize_out_parts s)
    ∧ (∀ part ∈ sanitize_out_parts s,
        part ≠ ""
        ∧ (∀ c ∈ part.toList, allowedChar c = true)
        ∧ part.toList.head? ≠ some ('.')
        ∧ part ≠ "." ∧ part ≠ "..")
    ∧ normalizePath (["projects", pid, "out"] ++ sanitize_out_parts s)
        = ["projects", pid, "out"] ++ sanitize_out_parts s := by
  have hparts : ∀ part ∈ sanitize_out_parts s,
      part ≠ ""
      ∧ (∀ c ∈ part.toList, allowedChar c = true)
      ∧ part.toList.head? ≠ some ('.')
      ∧ part ≠ "." ∧ part ≠ ".." := by
    intro part hmem
    rw [sanitize_out_parts] at hmem
    have hmem2 := List.mem_of_mem_filter hmem
    rcases List.mem_map.mp hmem2 with ⟨piece, _, hpiece⟩
    have hprops := sanitize_file_name_props ⟨piece⟩
    rw [hpiece] at hprops
    exact ⟨hprops.1, hprops.2.1, hprops.2.2.1, hprops.2.2.2.1, hprops.2.2.2.2.1⟩
  have hne : sanitize_out_parts s ≠ [] := by
    intro hnil
    rw [sanitize_out_path, hnil] at hs
    simp at hs
  have hout : out = String.intercalate ("/") (sanitize_out_parts s) := by
    rw [sanitize_out_path] at hs
    rw [if_neg (by simpa [List.isEmpty_iff] using hne)] at hs
    exact ((Option.some.injEq _ _).mp hs).symm
  refine ⟨hne, hout, hparts, ?_⟩
  apply normalizePath_append_normal
  · intro p hp
    fin_cases hp
    · exact ⟨by decide, by decide⟩
    · exact ⟨hpid1, hpid2⟩
    · exact ⟨by decide, by decide⟩
  · intro p hp
    exact ⟨(hparts p hp).2.2.2.1, (hparts p hp).2.2.2.2⟩

/-- Concrete run of the C9 theorem: the input media/../clips.txt loses its
".." component during sanitization and resolves strictly below out/. -/
theorem sanitize_out_path_safe_witness :
    normalizePath (["projects", ("p1"), "out"] ++ sanitize_out_parts ("media/../clips.txt"))
      = ["projects", ("p1"), "out"] ++ sanitize_out_parts ("media/../clips.txt") :=
  (sanitize_out_path_safe ("media/../clips.txt") ("media/clips.txt") ("p1")
    (by decide) (by decide) (by decide)).2.2.2

/-- The component list of the path projects/{pid}/out/export/{safe_name}
from which download_export_file serves (main.rs 3410-3419). -/
def download_export_components (pid file : String) : List String :=
  ["projects", pid, "out", "export", sanitize_file_name file]

/-- Claim C10: sanitize_file_name always returns a non-empty string of ASCII
alphanumerics plus '.', '-', '_' that does not start with '.' (with the
"video" fallback when nothing usable remains); consequently the file path
download_export_file serves resolves to exactly the components of the
project's out/export directory plus that single safe name. -/
theorem sanitize_file_name_download_safe (name pid : String)
    (hpid1 : pid ≠ (".")) (hpid2 : pid ≠ ("..")) :
    sanitize_file_name name ≠ ""
    ∧ (∀ c ∈ (sanitize_file_name name).toList, allowedChar c = true)
    ∧ (sanitize_file_name name).toList.head? ≠ some ('.')
    ∧ (sanitize_file_name_chars name.toList = [] → sanitize_file_name name = "video")
    ∧ normalizePath (download_export_components pid name)
        = ["projects", pid, "out", "export", sanitize_file_name name]
    ∧ (download_export_components pid name).take 4 = ["projects", pid, "out", "export"] := by
  have hprops := sanitize_file_name_props name
  refine ⟨hprops.1, hprops.2.1, hprops.2.2.1, hprops.2.2.2.2.2, ?_, rfl⟩
  have : download_export_components pid name
      = ["projects", pid, "out", "export"] ++ [sanitize_file_name name] := rfl
  rw [this]
  rw [normalizePath_append_normal]
  · rfl
  · intro p hp
    fin_cases hp
    · exact ⟨by decide, by decide⟩
    · exact ⟨hpid1, hpid2⟩
    · exact ⟨by decide, by decide⟩
    · exact ⟨by decide, by decide⟩
  · intro p hp
    have : p = sanitize_file_name name := by simpa using hp
    rw [this]
    exact ⟨hprops.2.2.2.1, hprops.2.2.2.2.1⟩

/-- Concrete run of the C10 theorem: the traversal attempt ../../secret is
flattened to a safe single component that stays inside out/export. -/
theorem sanitize_file_name_download_safe_witness :
    normalizePath (download_export_components ("p1") ("../../secret"))
      = ["projects", ("p1"), "out", "export", sanitize_file_name ("../../secret")] :=
  (sanitize_file_name_download_safe ("../../secret") ("p1")
    (by decide) (by decide)).2.2.2.2.1

/-! ## Claim C7: profile aggregator
(truncate_with_ellipsis, main.rs 222-231; merge_top_counts, main.rs 251-266;
build_profile_prompt, main.rs 268-296; update_profile_after_export,
main.rs 340-431) -/

/-- A frequency-table entry (ProfileMemoryCount in main.rs). -/
structure ProfileMemoryCount where
  key : String
  count : Int
deriving DecidableEq

/-- The profile record (ProfileMemory in main.rs). -/
structure ProfileMemory where
  version : Int
  updated_at_ms : Int
  exports_seen : Int
  kind_counts : List ProfileMemoryCount
  source_domain_counts : List ProfileMemoryCount
  prompt : String
  last_session_summary : String
deriving DecidableEq

/-- truncate_with_ellipsis (main.rs 222-231): keep the first maxChars
characters and append an ellipsis character when the input was longer. -/
def truncate_with_ellipsis (s : String) (maxChars : Nat) : String :=
  if maxChars = 0 then ""
  else
    let out : String := ⟨s.toList.take maxChars⟩
    if s.toList.length > maxChars then out.push ('…') else out

/-- BTreeMap insert-with-replace on a key-sorted association list (the
collect of the existing entries in merge_top_counts). -/
def btreeSet : List (String × Int) → String → Int → List (String × Int)
  | [], k, v => [(k, v)]
  | (k', v') :: rest, k, v =>
    if k = k' then (k, v) :: rest
    else if strLeB k k' then (k, v) :: (k', v') :: rest
    else (k', v') :: btreeSet rest k v

/-- BTreeMap entry(k).or_insert(0) += c on a key-sorted association list. -/
def btreeBump : List (String × Int) → String → Int → List (String × Int)
  | [], k, c => [(k, c)]
  | (k', v') :: rest, k, c =>
    if k = k' then (k', v' + c) :: rest
    else if strLeB k k' then (k, c) :: (k', v') :: rest
    else (k', v') :: btreeBump rest k c

/-- The sort_by comparator of merge_top_counts as a Bool less-or-equal:
x precedes y when x has the larger count, or equal counts and the
byte-lexicographically smaller-or-equal key. -/
def countOrd (x y : ProfileMemoryCount) : Bool :=
  if y.count < x.count then true
  else if x.count = y.count then strLeB x.key y.key
  else false

/-- Stable insertion into a sorted list (models Rust slice::sort_by, whose
output order is fully determined here because the comparator is total). -/
def insertSorted {α} (le : α → α → Bool) (x : α) : List α → List α
  | [] => [x]
  | y :: ys => if le x y then x :: y :: ys else y :: insertSorted le x ys

/-- Insertion sort driven by a Bool comparator. -/
def insertionSort {α} (le : α → α → Bool) : List α → List α
  | [] => []
  | x :: xs => insertSorted le x (insertionSort le xs)

/-- merge_top_counts (main.rs 251-266): fold the existing entries into a
key map, add the new entries (skipping blank keys), sort by descending
count with ascending key as tie-break, truncate to the limit. -/
def merge_top_counts (existing adds : List ProfileMemoryCount) (limit : Nat) :
    List ProfileMemoryCount :=
  let m0 := existing.foldl (fun m e => btreeSet m e.key e.count) []
  let m1 := adds.foldl
    (fun m a => if rustTrim a.key = "" then m else btreeBump m a.key a.count) m0
  let out := m1.map (fun kv => ProfileMemoryCount.mk kv.1 kv.2)
  (insertionSort countOrd out).take limit

/-- The key(count) rendering used by the prompt and session summaries. -/
def fmtCount (e : ProfileMemoryCount) : String :=
  e.key ++ "(" ++ toString e.count ++ ")"

/-- build_profile_prompt (main.rs 268-296): newline-join the non-empty
sections and truncate to 800 characters. -/
def build_profile_prompt (p : ProfileMemory) : String :=
  let lines :=
    (if p.kind_counts.isEmpty then []
     else ["Common selected asset kinds: "
             ++ String.intercalate (", ") (p.kind_counts.map fmtCount)])
    ++ (if p.source_domain_counts.isEmpty then []
        else ["Common input source domains: "
                ++ String.intercalate (", ") (p.source_domain_counts.map fmtCount)])
    ++ (if rustTrim p.last_session_summary = "" then []
        else ["Last export summary: " ++ rustTrim p.last_session_summary])
  truncate_with_ellipsis (String.intercalate ("\n") lines) 800

/-- The session-summary parts of update_profile_after_export
(main.rs 369-389). -/
def session_summary_parts (domain : Option String)
    (kind_counts : List ProfileMemoryCount) (io ir im ic ia it : Bool) :
    List String :=
  (match domain with | some d => ["source=" ++ d] | none => [])
  ++ (if kind_counts.isEmpty then []
      else
        let selected := String.intercalate (", ")
          ((kind_counts.filter (fun e => 0 < e.count)).map fmtCount)
        if selected = "" then [] else ["selected=" ++ selected])
  ++ ["include_original_video=" ++ toString io,
      "include_report=" ++ toString ir,
      "include_manifest=" ++ toString im,
      "include_clips=" ++ toString ic,
      "include_audio=" ++ toString ia,
      "include_thumbnails=" ++ toString it]

/-- update_profile_after_export (main.rs 340-431), its profile mutation:
kind_counts stands for the per-project selected pool counts read from the
store, domain for the host of the latest input_url artifact; exports_seen's
i64 saturating_add is modelled as Int addition (never near the boundary). -/
def update_profile_after_export (profile : ProfileMemory)
    (kind_counts : List ProfileMemoryCount) (domain : Option String)
    (io ir im ic ia it : Bool) (ts : Int) : ProfileMemory :=
  let session_summary := truncate_with_ellipsis
    ("Exported; "
      ++ String.intercalate ("; ") (session_summary_parts domain kind_counts io ir im ic ia it))
    400
  let p1 : ProfileMemory :=
    { profile with
      exports_seen := profile.exports_seen + 1,
      updated_at_ms := ts,
      last_session_summary := session_summary }
  let kc := merge_top_counts p1.kind_counts kind_counts 5
  let sdc :=
    match domain with
    | some d => merge_top_counts p1.source_domain_counts [ProfileMemoryCount.mk d 1] 5
    | none => p1.source_domain_counts
  let p2 : ProfileMemory := { p1 with kind_counts := kc, source_domain_counts := sdc }
  { p2 with prompt := build_profile_prompt p2 }

/-- Sortedness in the sense of the claim: strictly descending count, with
ascending key as the tie-break. -/
def countSorted (l : List ProfileMemoryCount) : Prop :=
  l.Pairwise (fun a b => b.count < a.count ∨ (a.count = b.count ∧ strLeB a.key b.key = true))

theorem charLeB_iff (a b : Char) : charLeB a b = true ↔ a ≤ b := by
  simp only [charLeB, decide_eq_true_eq]
  exact Iff.rfl

theorem lexLeB_total (as bs : List Char) : lexLeB as bs = true ∨ lexLeB bs as = true := by
  induction as generalizing bs with
  | nil => left; rfl
  | cons a as' ih =>
    cases bs with
    | nil => right; rfl
    | cons b bs' =>
      by_cases hab : a = b
      · subst hab
        rcases ih bs' with h | h
        · left; simpa [lexLeB] using h
        · right; simpa [lexLeB] using h
      · have hba : ¬b = a := fun he => hab he.symm
        rcases le_total a b with h | h
        · left
          rw [lexLeB, if_neg hab]
          exact (charLeB_iff a b).mpr h
        · right
          rw [lexLeB, if_neg hba]
          exact (charLeB_iff b a).mpr h

theorem lexLeB_trans (as bs cs : List Char) (h1 : lexLeB as bs = true)
    (h2 : lexLeB bs cs = true) : lexLeB as cs = true := by
  induction as generalizing bs cs with
  | nil => rfl
  | cons a as' ih =>
    cases bs with
    | nil => simp [lexLeB] at h1
    | cons b bs' =>
      cases cs with
      | nil => simp [lexLeB] at h2
      | cons c cs' =>
        by_cases hab : a = b <;> by_cases hbc : b = c
        · subst hab; subst hbc
          rw [lexLeB, if_pos rfl] at h1 h2 ⊢
          exact ih bs' cs' h1 h2
        · subst hab
          rw [lexLeB, if_neg hbc] at h2 ⊢
          exact h2
        · subst hbc
          rw [lexLeB, if_neg hab] at h1 ⊢
          exact h1
        · rw [lexLeB, if_neg hab] at h1
          rw [lexLeB, if_neg hbc] at h2
          have h1' : a ≤ b := (charLeB_iff a b).mp h1
          have h2' : b ≤ c := (charLeB_iff b c).mp h2
          by_cases hac : a = c
          · subst hac
            exact absurd (le_antisymm h1' h2') hab
          · rw [lexLeB, if_neg hac]
            exact (charLeB_iff a c).mpr (le_trans h1' h2')

theorem countOrd_iff (x y : ProfileMemoryCount) :
    countOrd x y = true
      ↔ (y.count < x.count ∨ (x.count = y.count ∧ strLeB x.key y.key = true)) := by
  unfold countOrd
  by_cases h1 : y.count < x.count
  · simp [h1]
  · by_cases h2 : x.count = y.count
    · simp [h1, h2]
    · simp [h1, h2]

theorem countOrd_total (x y : ProfileMemoryCount) :
    countOrd x y = true ∨ countOrd y x = true := by
  rcases lt_trichotomy x.count y.count with h | h | h
  · right; rw [countOrd_iff]; left; exact h
  · rcases lexLeB_total x.key.toList y.key.toList with hk | hk
    · left; rw [countOrd_iff]; right; exact ⟨h, hk⟩
    · right; rw [countOrd_iff]; right; exact ⟨h.symm, hk⟩
  · left; rw [countOrd_iff]; left; exact h

theorem countOrd_trans (x y z : ProfileMemoryCount) (h1 : countOrd x y = true)
    (h2 : countOrd y z = true) : countOrd x z = true := by
  rw [countOrd_iff] at h1 h2 ⊢
  rcases h1 with h1 | ⟨h1e, h1k⟩
  · rcases h2 with h2 | ⟨h2e, h2k⟩
    · left; exact lt_trans h2 h1
    · left; rw [← h2e]; exact h1
  · rcases h2 with h2 | ⟨h2e, h2k⟩
    · left; rw [h1e]; exact h2
    · right; exact ⟨h1e.trans h2e, lexLeB_trans _ _ _ h1k h2k⟩

theorem mem_insertSorted {α} (le : α → α → Bool) (x : α) (l : List α) (z : α)
    (h : z ∈ insertSorted le x l) : z = x ∨ z ∈ l := by
  induction l with
  | nil => simpa [insertSorted] using h
  | cons y ys ih =>
    by_cases hxy : le x y = true
    · rw [insertSorted, if_pos hxy] at h
      simpa using h
    · rw [insertSorted, if_neg hxy] at h
      rcases List.mem_cons.mp h with rfl | h'
      · right; exact List.mem_cons_self z ys
      · rcases ih h' with h'' | h''
        · left; exact h''
        · right; exact List.mem_cons_of_mem y h''

theorem pairwise_insertSorted {α} (le : α → α → Bool)
    (htot : ∀ a b, le a b = true ∨ le b a = true)
    (htrans : ∀ a b c, le a b = true → le b c = true → le a c = true)
    (x : α) (l : List α) (h : l.Pairwise (fun a b => le a b = true)) :
    (insertSorted le x l).Pairwise (fun a b => le a b = true) := by
  induction l with
  | nil => simp [insertSorted]
  | cons y ys ih =>
    rcases List.pairwise_cons.mp h with ⟨hy, hys⟩
    by_cases hxy : le x y = true
    · rw [insertSorted, if_pos hxy]
      apply List.pairwise_cons.mpr
      refine ⟨?_, h⟩
      intro z hz
      rcases List.mem_cons.mp hz with rfl | hz'
      · exact hxy
      · exact htrans x y z hxy (hy z hz')
    · rw [insertSorted, if_neg hxy]
      apply List.pairwise_cons.mpr
      refine ⟨?_, ih hys⟩
      intro z hz
      rcases mem_insertSorted le x ys z hz with rfl | hz'
      · rcases htot z y with h' | h'
        · exact absurd h' hxy
        · exact h'
      · exact hy z hz'

theorem pairwise_insertionSort {α} (le : α → α → Bool)
    (htot : ∀ a b, le a b = true ∨ le b a = true)
    (htrans : ∀ a b c, le a b = true → le b c = true → le a c = true)
    (l : List α) :
    (insertionSort le l).Pairwise (fun a b => le a b = true) := by
  induction l with
  | nil => simp [insertionSort]
  | cons x xs ih =>
    exact pairwise_insertSorted le htot htrans x (insertionSort le xs) ih

theorem merge_top_counts_bounded (existing adds : List ProfileMemoryCount)
    (limit : Nat) :
    (merge_top_counts existing adds limit).length ≤ limit
    ∧ countSorted (merge_top_counts existing adds limit) := by
  constructor
  · rw [merge_top_counts]
    exact List.length_take_le _ _
  · rw [merge_top_counts, countSorted]
    have hsorted := pairwise_insertionSort countOrd countOrd_total countOrd_trans
    exact ((hsorted _).imp (fun {a b} h => (countOrd_iff a b).mp h)).sublist
      (List.take_sublist _ _)

theorem truncate_with_ellipsis_length (s : String) (m : Nat) :
    (truncate_with_ellipsis s m).length ≤ m + 1 := by
  rw [truncate_with_ellipsis]
  by_cases hm : m = 0
  · rw [if_pos hm]
    exact Nat.zero_le _
  · rw [if_neg hm]
    by_cases hl : s.toList.length > m
    · rw [if_pos hl]
      have hpush : ((String.mk (s.toList.take m)).push ('…')).length
          = (s.toList.take m).length + 1 := by
        show (s.toList.take m ++ ['…']).length = (s.toList.take m).length + 1
        rw [List.length_append]
        rfl
      rw [hpush]
      have := List.length_take_le m s.toList
      omega
    · rw [if_neg hl]
      have hmk : (String.mk (s.toList.take m)).length = (s.toList.take m).length := rfl
      rw [hmk]
      have := List.length_take_le m s.toList
      omega

/-- Claim C7 (amended): after every update_profile_after_export, over any
inputs and any prior profile whose source-domain table already satisfies
the bounds (the kind table is rebuilt unconditionally; the source table is
rebuilt only when an input domain is present and is otherwise carried
over), both frequency tables have at most 5 entries and are sorted by
descending count with ascending key as tie-break, and the rebuilt prompt
has at most 801 characters: 800 kept characters plus the appended ellipsis
when the rendering was truncated. -/
theorem update_profile_after_export_bounds (profile : ProfileMemory)
    (kind_counts : List ProfileMemoryCount) (domain : Option String)
    (io ir im ic ia it : Bool) (ts : Int)
    (hl : profile.source_domain_counts.length ≤ 5)
    (hs : countSorted profile.source_domain_counts) :
    (update_profile_after_export profile kind_counts domain io ir im ic ia it ts).kind_counts.length ≤ 5
    ∧ countSorted (update_profile_after_export profile kind_counts domain io ir im ic ia it ts).kind_counts
    ∧ (update_profile_after_export profile kind_counts domain io ir im ic ia it ts).source_domain_counts.length ≤ 5
    ∧ countSorted (update_profile_after_export profile kind_counts domain io ir im ic ia it ts).source_domain_counts
    ∧ (update_profile_after_export profile kind_counts domain io ir im ic ia it ts).prompt.length ≤ 801 := by
  refine ⟨?_, ?_, ?_, ?_, ?_⟩
  · exact (merge_top_counts_bounded _ _ 5).1
  · exact (merge_top_counts_bounded _ _ 5).2
  · cases domain with
    | some d => exact (merge_top_counts_bounded _ _ 5).1
    | none => exact hl
  · cases domain with
    | some d => exact (merge_top_counts_bounded _ _ 5).2
    | none => exact hs
  · simpa using truncate_with_ellipsis_length _ 800

/-- Claim C7 counterexample: the claim bounds the rebuilt prompt by 800
characters, but truncate_with_ellipsis appends an ellipsis after keeping
800 characters, so a single selected-kind key of 800 characters drives the
prompt to 801 characters. -/
theorem update_profile_prompt_overflow :
    800 < (update_profile_after_export (ProfileMemory.mk 1 0 0 [] [] ("") (""))
      [ProfileMemoryCount.mk ⟨List.replicate 800 ('a')⟩ 1] none
      true true true true true true 0).prompt.length := by
  decide

/-- Concrete run of the C7 theorem on an empty prior profile. -/
theorem update_profile_after_export_bounds_witness :
    (update_profile_after_export (ProfileMemory.mk 1 0 0 [] [] ("") (""))
      [ProfileMemoryCount.mk ("clip") 2] (some ("youtube.com"))
      true true true false false false 5).prompt.length ≤ 801 :=
  (update_profile_after_export_bounds (ProfileMemory.mk 1 0 0 [] [] ("") (""))
    [ProfileMemoryCount.mk ("clip") 2] (some ("youtube.com"))
    true true true false false false 5 (by decide) List.Pairwise.nil).2.2.2.2

/-! ## Claim C1: export size estimate versus materialized archive
(estimate_export_zip, main.rs 2899-3107; export_zip, main.rs 3116-3400)

The database state is the artifacts table and the pool_items table; the
filesystem is an association list from relative path to byte size.  The
wall-clock timestamp now_ms() is one explicit parameter used both for the
snapshot serialization and the zip file name ("immediately after with no
intervening state change" reads as: same state, same clock reading).
-/

/-- The database state consulted by the export pair. -/
structure Db where
  artifacts : List Artifact
  pool_items : List PoolItem
deriving DecidableEq

/-- Byte size of the file at a relative path, none when absent
(abs.exists() plus std::fs::metadata(abs)?.len()). -/
def lookupFs : List (String × Nat) → String → Option Nat
  | [], _ => none
  | e :: rest, p => if e.1 = p then some e.2 else lookupFs rest p

/-- std::fs::write / File::create: create or truncate-overwrite a file. -/
def setFs : List (String × Nat) → String → Nat → List (String × Nat)
  | [], p, n => [(p, n)]
  | e :: rest, p, n =>
    if e.1 = p then (p, n) :: rest else e :: setFs rest p n

/-- SELECT ... WHERE project_id = ?1 AND kind = ?2 ORDER BY created_at_ms
DESC LIMIT 1, shared verbatim by estimate_export_zip and export_zip: the
artifact of the kind with the greatest created_at_ms (ties resolved to the
earliest row; SQLite leaves ties unspecified, and both callers run the
same query on the same state, so one fixed resolution is faithful). -/
def latestArtifact : List Artifact → String → String → Option Artifact
  | [], _, _ => none
  | a :: rest, pid, kind =>
    if a.project_id = pid ∧ a.kind = kind then
      match latestArtifact rest pid kind with
      | none => some a
      | some b => if a.created_at_ms < b.created_at_ms then some b else some a
    else latestArtifact rest pid kind

/-- The path column of the latest artifact of a kind. -/
def latestKindPath (db : Db) (pid kind : String) : Option String :=
  (latestArtifact db.artifacts pid kind).map (fun a => a.path)

/-- SELECT ... FROM pool_items WHERE project_id = ?1 AND selected = 1 ORDER
BY created_at_ms ASC, shared by both operations for the snapshot. -/
def selected_pool_items (db : Db) (pid : String) : List PoolItem :=
  insertionSort (fun a b => a.created_at_ms ≤ b.created_at_ms)
    (db.pool_items.filter (fun it => decide (it.project_id = pid) && it.selected))

/-- The hexadecimal digits serde_json uses for control-character escapes. -/
def hexDigits : List Char :=
  ("0123456789abcdef").toList

/-- serde_json string escaping: quote, backslash, the short control escapes
and unicode escapes for the remaining control characters; everything else
is emitted raw. -/
def jsonEscapeChar (c : Char) : String :=
  if c = '"' then "\\\""
  else if c = '\\' then "\\\\"
  else if c = '\x08' then "\\b"
  else if c = '\x09' then "\\t"
  else if c = '\x0a' then "\\n"
  else if c = '\x0c' then "\\f"
  else if c = '\x0d' then "\\r"
  else if c.toNat < 32 then
    "\\u00" ++ ⟨[hexDigits.getD (c.toNat / 16) ('0'), hexDigits.getD (c.toNat % 16) ('0')]⟩
  else String.singleton c

/-- A serde_json string literal. -/
def jsonStr (s : String) : String :=
  "\"" ++ String.join (s.toList.map jsonEscapeChar) ++ "\""

/-- serde_json rendering of an Option String field. -/
def jsonOptStr : Option String → String
  | none => "null"
  | some s => jsonStr s

/-- serde_json rendering of a Bool. -/
def jsonBool (b : Bool) : String :=
  if b then "true" else "false"

/-- serde_json::to_vec_pretty of one PoolItemResponse inside the
selected_pool_items array (object keys in BTreeMap order, two-space
indentation, array items at depth two). -/
def renderPoolItemJson (it : PoolItem) : String :=
  "\x7b\n      \"created_at_ms\": " ++ toString it.created_at_ms
  ++ ",\n      \"data_json\": " ++ jsonOptStr it.data_json
  ++ ",\n      \"dedup_key\": " ++ jsonStr it.dedup_key
  ++ ",\n      \"id\": " ++ jsonStr it.id
  ++ ",\n      \"kind\": " ++ jsonStr it.kind
  ++ ",\n      \"license\": " ++ jsonOptStr it.license
  ++ ",\n      \"project_id\": " ++ jsonStr it.project_id
  ++ ",\n      \"selected\": " ++ jsonBool it.selected
  ++ ",\n      \"source_url\": " ++ jsonOptStr it.source_url
  ++ ",\n      \"title\": " ++ jsonOptStr it.title
  ++ "\n    \x7d"

/-- serde_json::to_vec_pretty of the selected_pool_items array. -/
def renderPoolItemsJson : List PoolItem → String
  | [] => "[]"
  | items =>
    "[\n    " ++ String.intercalate (",\n    ") (items.map renderPoolItemJson) ++ "\n  ]"

/-- serde_json::to_vec_pretty of the selected_pool.json snapshot document
(main.rs 2990-2995 and 3253-3258: the identical json! object in both
operations). -/
def render_selected_pool (pid : String) (items : List PoolItem) (now : Int) : String :=
  "\x7b\n  \"generated_at_ms\": " ++ toString now
  ++ ",\n  \"project_id\": " ++ jsonStr pid
  ++ ",\n  \"selected_pool_items\": " ++ renderPoolItemsJson items
  ++ ",\n  \"version\": 1\n\x7d"

/-- Vec::len of the serialized snapshot: the UTF-8 byte count. -/
def utf8Len (s : String) : Nat :=
  s.toList.foldl (fun n c => n + c.utf8Size) 0

/-- The snapshot byte count both operations derive from the same state and
the same clock reading. -/
def selected_pool_bytes (db : Db) (pid : String) (now : Int) : Nat :=
  utf8Len (render_selected_pool pid (selected_pool_items db pid) now)

/-- Rust Path::file_name on the stored relative paths: the last component
after dropping empty and "." components; none when the path ends in "..".
Only used for entry names inside the archive, never for byte counts. -/
def rustFileName (p : String) : Option String :=
  let comps := (splitChar '/' p.toList).filter
    (fun c => !(c == ([] : List Char)) && !(c == ['.']))
  match comps.getLast? with
  | none => none
  | some l => if l = ['.', '.'] then none else some ⟨l⟩

/-- The six include flags after their unwrap_or defaults. -/
structure ExportFlags where
  include_original_video : Bool
  include_report : Bool
  include_manifest : Bool
  include_clips : Bool
  include_audio : Bool
  include_thumbnails : Bool
deriving DecidableEq

/-- One fixed-name candidate (report.html / manifest.json): latest artifact
of the kind, skipped silently when the backing file is missing. -/
def estFixedEntry (db : Db) (fs : List (String × Nat)) (pid kind name : String) :
    List (String × Nat) :=
  match latestKindPath db pid kind with
  | some path =>
    match lookupFs fs path with
    | some n => [(name, n)]
    | none => []
  | none => []

/-- One candidate named from its backing file (input_video / clips / audio
/ thumbnails): prefix plus Path::file_name with the caller's unwrap_or
default, skipped silently when the backing file is missing. -/
def estNamedEntry (db : Db) (fs : List (String × Nat))
    (pid kind pfx dflt : String) : List (String × Nat) :=
  match latestKindPath db pid kind with
  | some path =>
    match lookupFs fs path with
    | some n => [(pfx ++ ((rustFileName path).getD dflt), n)]
    | none => []
  | none => []

/-- estimate_export_zip (main.rs 2929-3098): the files vector of
(name, bytes) pairs — report, manifest, the always-included snapshot,
original video, clips, audio, thumbnails, sizes read from the untouched
filesystem. -/
def estimate_export_zip (db : Db) (fs : List (String × Nat)) (pid : String)
    (flags : ExportFlags) (now : Int) : List (String × Nat) :=
  (if flags.include_report then estFixedEntry db fs pid ("report_html") ("report.html") else [])
  ++ (if flags.include_manifest then estFixedEntry db fs pid ("manifest_json") ("manifest.json") else [])
  ++ [(("selected_pool.json"), selected_pool_bytes db pid now)]
  ++ (if flags.include_original_video then
        estNamedEntry db fs pid ("input_video") ("input_video/") ("input_video") else [])
  ++ (if flags.include_clips then
        estNamedEntry db fs pid ("clip_start") ("clips/") ("clip_start")
        ++ estNamedEntry db fs pid ("clip_mid") ("clips/") ("clip_mid")
        ++ estNamedEntry db fs pid ("clip_end") ("clips/") ("clip_end")
      else [])
  ++ (if flags.include_audio then estNamedEntry db fs pid ("audio_wav") ("audio/") ("audio.wav") else [])
  ++ (if flags.include_thumbnails then
        estNamedEntry db fs pid ("thumb_start") ("thumbnails/") ("thumb_start")
        ++ estNamedEntry db fs pid ("thumb_mid") ("thumbnails/") ("thumb_mid")
        ++ estNamedEntry db fs pid ("thumb_end") ("thumbnails/") ("thumb_end")
      else [])

/-- total_bytes of the estimate: files.iter().map(bytes).sum(). -/
def estimate_total_bytes (db : Db) (fs : List (String × Nat)) (pid : String)
    (flags : ExportFlags) (now : Int) : Nat :=
  ((estimate_export_zip db fs pid flags now).map Prod.snd).sum

/-- The export directory projects/{pid}/out/export. -/
def export_dir_rel (pid : String) : String :=
  "projects/" ++ pid ++ "/out/export"

/-- The snapshot path export_zip overwrites before reading sizes. -/
def selected_pool_rel (pid : String) : String :=
  export_dir_rel pid ++ "/selected_pool.json"

/-- The archive path vidunpack-export-{pid}-{ts}.zip created (truncated to
zero bytes) before the entries are written. -/
def export_zip_rel (pid : String) (ts : Int) : String :=
  export_dir_rel pid ++ "/vidunpack-export-" ++ pid ++ "-" ++ toString ts ++ ".zip"

/-- export_zip (main.rs 3135-3353): the archive entries as (name, bytes)
pairs.  The path queries read only the database and happen before any
write; then the snapshot is written, the zip file created, and each
candidate's size is read back from the updated filesystem (add_file reads
metadata immediately before streaming the file in).  The archive's own
growth on disk is not tracked beyond its creation at size zero — the
agreement theorem therefore assumes no candidate path collides with it. -/
def export_zip_entries (db : Db) (fs : List (String × Nat)) (pid : String)
    (flags : ExportFlags) (now : Int) : List (String × Nat) :=
  let fs₁ := setFs fs (selected_pool_rel pid) (selected_pool_bytes db pid now)
  let fs₂ := setFs fs₁ (export_zip_rel pid now) 0
  (if flags.include_report then estFixedEntry db fs₂ pid ("report_html") ("report.html") else [])
  ++ (if flags.include_manifest then estFixedEntry db fs₂ pid ("manifest_json") ("manifest.json") else [])
  ++ (match lookupFs fs₂ (selected_pool_rel pid) with
      | some n => [(("selected_pool.json"), n)]
      | none => [])
  ++ (if flags.include_original_video then
        estNamedEntry db fs₂ pid ("input_video") ("input_video/") ("input_video") else [])
  ++ (if flags.include_clips then
        estNamedEntry db fs₂ pid ("clip_start") ("clips/") ("clip.mp4")
        ++ estNamedEntry db fs₂ pid ("clip_mid") ("clips/") ("clip.mp4")
        ++ estNamedEntry db fs₂ pid ("clip_end") ("clips/") ("clip.mp4")
      else [])
  ++ (if flags.include_audio then estNamedEntry db fs₂ pid ("audio_wav") ("audio/") ("audio.wav") else [])
  ++ (if flags.include_thumbnails then
        estNamedEntry db fs₂ pid ("thumb_start") ("thumbnails/") ("thumb.jpg")
        ++ estNamedEntry db fs₂ pid ("thumb_mid") ("thumbnails/") ("thumb.jpg")
        ++ estNamedEntry db fs₂ pid ("thumb_end") ("thumbnails/") ("thumb.jpg")
      else [])

/-- The uncompressed byte total export_zip accumulates (u64 saturating adds
of the sizes add_file returns, far from the boundary). -/
def export_total_bytes (db : Db) (fs : List (String × Nat)) (pid : String)
    (flags : ExportFlags) (now : Int) : Nat :=
  ((export_zip_entries db fs pid flags now).map Prod.snd).sum

theorem lookupFs_setFs (fs : List (String × Nat)) (q p : String) (n : Nat) :
    lookupFs (setFs fs q n) p = if p = q then some n else lookupFs fs p := by
  induction fs with
  | nil =>
    by_cases h : p = q
    · subst h; simp [setFs, lookupFs]
    · have h' : ¬(q = p) := fun he => h he.symm
      simp [setFs, lookupFs, h, h']
  | cons e rest ih =>
    rw [setFs]
    by_cases he : e.1 = q
    · rw [if_pos he]
      by_cases h : p = q
      · subst h; simp [lookupFs]
      · have h' : ¬(q = p) := fun hx => h hx.symm
        rw [lookupFs, if_neg h', if_neg h, lookupFs,
          if_neg (fun hx => h' (he ▸ hx))]
    · rw [if_neg he]
      rw [lookupFs]
      by_cases hep : e.1 = p
      · rw [if_pos hep]
        have hpq : ¬(p = q) := fun hx => he (hep.trans hx)
        rw [if_neg hpq, lookupFs, if_pos hep]
      · rw [if_neg hep, ih]
        by_cases h : p = q
        · rw [if_pos h, if_pos h]
        · rw [if_neg h, if_neg h, lookupFs, if_neg hep]

theorem latestArtifact_mem (arts : List Artifact) (pid kind : String)
    (a : Artifact) (h : latestArtifact arts pid kind = some a) : a ∈ arts := by
  induction arts with
  | nil => simp [latestArtifact] at h
  | cons x rest ih =>
    rw [latestArtifact] at h
    by_cases hx : x.project_id = pid ∧ x.kind = kind
    · rw [if_pos hx] at h
      cases hrec : latestArtifact rest pid kind with
      | none =>
        rw [hrec] at h
        have h' : some x = some a := h
        rw [← Option.some.inj h']
        exact List.mem_cons_self x rest
      | some b =>
        rw [hrec] at h
        have h' : (if x.created_at_ms < b.created_at_ms then some b else some x)
            = some a := h
        by_cases hcmp : x.created_at_ms < b.created_at_ms
        · rw [if_pos hcmp] at h'
          rw [Option.some.inj h'] at hrec
          exact List.mem_cons_of_mem x (ih hrec)
        · rw [if_neg hcmp] at h'
          rw [← Option.some.inj h']
          exact List.mem_cons_self x rest
    · rw [if_neg hx] at h
      exact List.mem_cons_of_mem x (ih h)

theorem estFixedEntry_snd_eq (db : Db) (fs' fs : List (String × Nat))
    (pid kind nameX nameE : String)
    (hfs : ∀ p, latestKindPath db pid kind = some p → lookupFs fs' p = lookupFs fs p) :
    (estFixedEntry db fs' pid kind nameX).map Prod.snd
      = (estFixedEntry db fs pid kind nameE).map Prod.snd := by
  unfold estFixedEntry
  cases hl : latestKindPath db pid kind with
  | none => rfl
  | some p =>
    have hfp := hfs p hl
    show (match lookupFs fs' p with
          | some n => [(nameX, n)]
          | none => ([] : List (String × Nat))).map Prod.snd
        = (match lookupFs fs p with
          | some n => [(nameE, n)]
          | none => ([] : List (String × Nat))).map Prod.snd
    rw [hfp]
    cases lookupFs fs p <;> rfl

theorem estNamedEntry_snd_eq (db : Db) (fs' fs : List (String × Nat))
    (pid kind pfx dX dE : String)
    (hfs : ∀ p, latestKindPath db pid kind = some p → lookupFs fs' p = lookupFs fs p) :
    (estNamedEntry db fs' pid kind pfx dX).map Prod.snd
      = (estNamedEntry db fs pid kind pfx dE).map Prod.snd := by
  unfold estNamedEntry
  cases hl : latestKindPath db pid kind with
  | none => rfl
  | some p =>
    have hfp := hfs p hl
    show (match lookupFs fs' p with
          | some n => [(pfx ++ ((rustFileName p).getD dX), n)]
          | none => ([] : List (String × Nat))).map Prod.snd
        = (match lookupFs fs p with
          | some n => [(pfx ++ ((rustFileName p).getD dE), n)]
          | none => ([] : List (String × Nat))).map Prod.snd
    rw [hfp]
    cases lookupFs fs p <;> rfl

theorem selected_pool_rel_ne_zip (pid : String) (now : Int) :
    selected_pool_rel pid ≠ export_zip_rel pid now := by
  intro he
  have hlen := congrArg String.length he
  rw [selected_pool_rel, export_zip_rel] at hlen
  simp only [String.length_append] at hlen
  have l1 : ("/selected_pool.json" : String).length = 19 := by decide
  have l2 : ("/vidunpack-export-" : String).length = 18 := by decide
  have l3 : ("-" : String).length = 1 := by decide
  have l4 : (".zip" : String).length = 4 := by decide
  rw [l1, l2, l3, l4] at hlen
  omega

theorem map_snd_ite (c : Bool) (A B : List (String × Nat))
    (h : A.map Prod.snd = B.map Prod.snd) :
    (if c then A else []).map Prod.snd = (if c then B else []).map Prod.snd := by
  cases c
  · rfl
  · simpa using h

/-- Claim C1 (amended): for every project state, every combination of the
six include flags and every clock reading, the total returned by
estimate_export_zip equals the sum of uncompressed bytes export_zip writes
into the archive — entry for entry — provided no registered artifact's
backing path coincides with the snapshot path selected_pool.json inside
the export directory (which export_zip overwrites before reading sizes) or
with the fresh zip path itself.  Missing backing files drop out of both
sides identically, and the always-included snapshot contributes the same
byte count to both. -/
theorem export_zip_estimate_agreement (db : Db) (fs : List (String × Nat))
    (pid : String) (flags : ExportFlags) (now : Int)
    (hsp : ∀ a ∈ db.artifacts, a.path ≠ selected_pool_rel pid)
    (hzip : ∀ a ∈ db.artifacts, a.path ≠ export_zip_rel pid now) :
    (export_zip_entries db fs pid flags now).map Prod.snd
      = (estimate_export_zip db fs pid flags now).map Prod.snd
    ∧ export_total_bytes db fs pid flags now
      = estimate_total_bytes db fs pid flags now := by
  have hfs : ∀ (kind : String) (p : String), latestKindPath db pid kind = some p →
      lookupFs (setFs (setFs fs (selected_pool_rel pid) (selected_pool_bytes db pid now))
          (export_zip_rel pid now) 0) p
        = lookupFs fs p := by
    intro kind p hl
    rw [latestKindPath] at hl
    cases ha : latestArtifact db.artifacts pid kind with
    | none => rw [ha] at hl; simp at hl
    | some a =>
      rw [ha] at hl
      have hl' : some a.path = some p := hl
      have hp : a.path = p := Option.some.inj hl'
      have hmem := latestArtifact_mem db.artifacts pid kind a ha
      have h1 : p ≠ selected_pool_rel pid := hp ▸ hsp a hmem
      have h2 : p ≠ export_zip_rel pid now := hp ▸ hzip a hmem
      rw [lookupFs_setFs, if_neg h2, lookupFs_setFs, if_neg h1]
  have hsnap : lookupFs (setFs (setFs fs (selected_pool_rel pid)
        (selected_pool_bytes db pid now)) (export_zip_rel pid now) 0)
        (selected_pool_rel pid)
      = some (selected_pool_bytes db pid now) := by
    rw [lookupFs_setFs, if_neg (selected_pool_rel_ne_zip pid now), lookupFs_setFs,
      if_pos rfl]
  have hentries : (export_zip_entries db fs pid flags now).map Prod.snd
      = (estimate_export_zip db fs pid flags now).map Prod.snd := by
    have hclips : ((estNamedEntry db (setFs (setFs fs (selected_pool_rel pid)
            (selected_pool_bytes db pid now)) (export_zip_rel pid now) 0)
            pid ("clip_start") ("clips/") ("clip.mp4")
          ++ estNamedEntry db (setFs (setFs fs (selected_pool_rel pid)
            (selected_pool_bytes db pid now)) (export_zip_rel pid now) 0)
            pid ("clip_mid") ("clips/") ("clip.mp4")
          ++ estNamedEntry db (setFs (setFs fs (selected_pool_rel pid)
            (selected_pool_bytes db pid now)) (export_zip_rel pid now) 0)
            pid ("clip_end") ("clips/") ("clip.mp4")).map Prod.snd)
        = ((estNamedEntry db fs pid ("clip_start") ("clips/") ("clip_start")
          ++ estNamedEntry db fs pid ("clip_mid") ("clips/") ("clip_mid")
          ++ estNamedEntry db fs pid ("clip_end") ("clips/") ("clip_end")).map Prod.snd) := by
      simp only [List.map_append]
      rw [estNamedEntry_snd_eq db _ fs pid ("clip_start") ("clips/") ("clip.mp4") ("clip_start") (hfs _),
        estNamedEntry_snd_eq db _ fs pid ("clip_mid") ("clips/") ("clip.mp4") ("clip_mid") (hfs _),
        estNamedEntry_snd_eq db _ fs pid ("clip_end") ("clips/") ("clip.mp4") ("clip_end") (hfs _)]
    have hthumbs : ((estNamedEntry db (setFs (setFs fs (selected_pool_rel pid)
            (selected_pool_bytes db pid now)) (export_zip_rel pid now) 0)
            pid ("thumb_start") ("thumbnails/") ("thumb.jpg")
          ++ estNamedEntry db (setFs (setFs fs (selected_pool_rel pid)
            (selected_pool_bytes db pid now)) (export_zip_rel pid now) 0)
            pid ("thumb_mid") ("thumbnails/") ("thumb.jpg")
          ++ estNamedEntry db (setFs (setFs fs (selected_pool_rel pid)
            (selected_pool_bytes db pid now)) (export_zip_rel pid now) 0)
            pid ("thumb_end") ("thumbnails/") ("thumb.jpg")).map Prod.snd)
        = ((estNamedEntry db fs pid ("thumb_start") ("thumbnails/") ("thumb_start")
          ++ estNamedEntry db fs pid ("thumb_mid") ("thumbnails/") ("thumb_mid")
          ++ estNamedEntry db fs pid ("thumb_end") ("thumbnails/") ("thumb_end")).map Prod.snd) := by
      simp only [List.map_append]
      rw [estNamedEntry_snd_eq db _ fs pid ("thumb_start") ("thumbnails/") ("thumb.jpg") ("thumb_start") (hfs _),
        estNamedEntry_snd_eq db _ fs pid ("thumb_mid") ("thumbnails/") ("thumb.jpg") ("thumb_mid") (hfs _),
        estNamedEntry_snd_eq db _ fs pid ("thumb_end") ("thumbnails/") ("thumb.jpg") ("thumb_end") (hfs _)]
    simp only [export_zip_entries, estimate_export_zip, List.map_append]
    rw [hsnap,
      map_snd_ite flags.include_report _ _
        (estFixedEntry_snd_eq db _ fs pid ("report_html") ("report.html") ("report.html") (hfs _)),
      map_snd_ite flags.include_manifest _ _
        (estFixedEntry_snd_eq db _ fs pid ("manifest_json") ("manifest.json") ("manifest.json") (hfs _)),
      map_snd_ite flags.include_original_video _ _
        (estNamedEntry_snd_eq db _ fs pid ("input_video") ("input_video/") ("input_video") ("input_video") (hfs _)),
      map_snd_ite flags.include_clips _ _ hclips,
      map_snd_ite flags.include_audio _ _
        (estNamedEntry_snd_eq db _ fs pid ("audio_wav") ("audio/") ("audio.wav") ("audio.wav") (hfs _)),
      map_snd_ite flags.include_thumbnails _ _ hthumbs]
  refine ⟨hentries, ?_⟩
  rw [export_total_bytes, estimate_total_bytes, hentries]

/-- A reachable state violating claim C1 as stated: via create_text_artifact
(kind report_html, out_path export/selected_pool.json) the latest
report_html artifact's backing file is the snapshot path itself, which
export_zip overwrites before reading sizes. -/
def c1_db : Db :=
  Db.mk [Artifact.mk ("a1") ("p") ("report_html") (selected_pool_rel ("p")) 5] []

/-- The filesystem for the C1 counterexample: the old snapshot-path file
holds one byte. -/
def c1_fs : List (String × Nat) :=
  [(selected_pool_rel ("p"), 1)]

/-- Flags for the C1 counterexample: only the report is included. -/
def c1_flags : ExportFlags :=
  ExportFlags.mk false true false false false false

/-- Claim C1 counterexample: with the latest report_html artifact backed by
the export snapshot path, the estimate counts the old one-byte file while
the materialization first overwrites that file with the fresh snapshot and
then archives the snapshot twice, so the totals differ. -/
theorem export_zip_estimate_divergence :
    export_total_bytes c1_db c1_fs ("p") c1_flags 0
      ≠ estimate_total_bytes c1_db c1_fs ("p") c1_flags 0 := by
  decide

/-- State for the C1 witness: an ordinary report artifact of 120 bytes. -/
def c1w_db : Db :=
  Db.mk [Artifact.mk ("a1") ("p") ("report_html")
    ("projects/p/out/export/report.html") 5] []

/-- Filesystem for the C1 witness. -/
def c1w_fs : List (String × Nat) :=
  [(("projects/p/out/export/report.html"), 120)]

/-- All six include flags on. -/
def c1w_flags : ExportFlags :=
  ExportFlags.mk true true true true true true

/-- Concrete run of the C1 theorem: on a state without path collisions the
materialized byte total equals the estimate. -/
theorem export_zip_estimate_agreement_witness :
    export_total_bytes c1w_db c1w_fs ("p") c1w_flags 0
      = estimate_total_bytes c1w_db c1w_fs ("p") c1w_flags 0 :=
  (export_zip_estimate_agreement c1w_db c1w_fs ("p") c1w_flags 0
    (by decide) (by decide)).2

end VidUnpack
